import Mathlib

/-!
Verification of the Spain news aggregation pipeline (`main.go`).

Shallow embedding conventions:
* Go `string` values are modelled by Lean `String` (a structure over `List Char`);
  Go's byte-level operations coincide with char-level ones on the inputs of
  interest because UTF-8 is self-synchronizing.
* `strings.ToLower` is modelled by per-character lowering (`strToLower`);
  the exact Unicode case table is orthogonal to every property proved here.
* `time.Time` values are modelled as `Int` seconds; `time.Now()` is passed in
  explicitly as a `now : Int` parameter, and `time.Since(t) = now - t`.
* Network effects (RSS fetching, the DeepL call, the webhook POST) are passed
  in as explicit result values or result-returning function parameters.
-/

/-- Initial-segment matching on char lists:
`startsWithCL pat l` is true when `pat` is an initial segment of `l`. -/
def startsWithCL : List Char → List Char → Bool
  | [], _ => true
  | _ :: _, [] => false
  | p :: ps, c :: cs => p == c && startsWithCL ps cs

/-- Substring occurrence: `containsSubCL pat hay` is true when `pat` occurs contiguously in `hay`. -/
def containsSubCL (pat : List Char) : List Char → Bool
  | [] => pat.isEmpty
  | c :: cs => startsWithCL pat (c :: cs) || containsSubCL pat cs

/-- Model of Go `strings.Contains(hay, pat)`. -/
def strContains (hay pat : String) : Bool :=
  containsSubCL pat.data hay.data

/-- Model of Go `strings.ToLower` (per-character case mapping). -/
def strToLower (s : String) : String :=
  String.mk (s.data.map Char.toLower)

/-- The `NewsItem` struct from `main.go`. -/
structure NewsItem where
  title : String
  titleRU : String
  description : String
  descriptionRU : String
  link : String
  source : String
  publishDate : Int
  score : Int
deriving DecidableEq, Repr

/-- Builds a `NewsItem` with the given title, description and publish date,
all the remaining fields zeroed (used for concrete witnesses). -/
def mkItem (title description : String) (publishDate : Int) : NewsItem :=
  { title := title, titleRU := "", description := description, descriptionRU := ""
    link := "", source := "", publishDate := publishDate, score := 0 }

/-- A placeholder item, used only as the default argument of `List.getD`. -/
def noItem : NewsItem := mkItem "" "" 0

/-- The `Config` struct from `main.go` (the timeout is kept as plain seconds). -/
structure Config where
  webhookURL : String
  deepLAPIKey : String
  maxNewsItems : Nat
  requestTimeoutSec : Nat
  userAgent : String
deriving DecidableEq, Repr

/-- Model of `NewNewsAggregator` from `main.go`: the configuration it constructs. -/
def NewNewsAggregator (webhookURL deeplAPIKey : String) : Config :=
  { webhookURL := webhookURL
    deepLAPIKey := deeplAPIKey
    maxNewsItems := 5
    requestTimeoutSec := 30
    userAgent := "Mozilla/5.0 (Windows NT 10.0; Win64; x64) AppleWebKit/537.36 (KHTML, like Gecko) Chrome/120.0.0.0 Safari/537.36" }

/-- The fixed keyword list of `filterSpainNews`. -/
def spainKeywords : List String :=
  ["españa", "spain", "español", "española",
   "madrid", "barcelona", "valencia", "sevilla",
   "gobierno español", "pedro sánchez", "rey felipe",
   "la moncloa", "congreso de los diputados"]

/-- The lowercased `item.Title + " " + item.Description` used by the filter
and the scorer. -/
def contentOf (item : NewsItem) : String :=
  strToLower (item.title ++ " " ++ item.description)

/-- Model of `calculateRelevanceScore` from `main.go`.  `int(time.Since(...).Hours())`
truncates toward zero, modelled by `Int.tdiv` on seconds. -/
def calculateRelevanceScore (now : Int) (item : NewsItem) (keywords : List String) : Int :=
  keywords.foldl
    (fun sc keyword => if strContains (strToLower item.title) keyword then sc + 20 else sc)
    (keywords.foldl
      (fun sc keyword => if strContains (contentOf item) keyword then sc + 10 else sc)
      (if Int.tdiv (now - item.publishDate) 3600 < 1 then 100
       else if Int.tdiv (now - item.publishDate) 3600 < 6 then 50
       else if Int.tdiv (now - item.publishDate) 3600 < 12 then 25
       else 0))

/-- The recency bonus of §4.3, as a function of the age truncated to whole
hours (spec-side restatement used to phrase the scorer's closed form). -/
def recencyBonus (hoursSincePublish : Int) : Int :=
  if hoursSincePublish < 1 then 100
  else if hoursSincePublish < 6 then 50
  else if hoursSincePublish < 12 then 25
  else 0

/-- Model of `filterSpainNews` from `main.go`: keep items whose lowercased
title+description contains some keyword, annotating them with their score. -/
def filterSpainNews (now : Int) (news : List NewsItem) : List NewsItem :=
  news.filterMap (fun item =>
    if spainKeywords.any (fun keyword => strContains (contentOf item) keyword)
    then some { item with score := calculateRelevanceScore now item spainKeywords }
    else none)

/-- The loop of `removeDuplicates` from `main.go`: the Go `seen` map is modelled
as the list of strings already marked. -/
def removeDupAux (seen : List String) : List String → List String
  | [] => []
  | item :: rest =>
    if item ∈ seen then removeDupAux seen rest
    else item :: removeDupAux (item :: seen) rest

/-- Model of `removeDuplicates` from `main.go`. -/
def removeDuplicates (items : List String) : List String :=
  removeDupAux [] items

/-- Spec-side reference deduplication: keep the first occurrence of each
string, preserving order (used to state first-occurrence semantics). -/
def dedupFirst : List String → List String
  | [] => []
  | x :: xs => x :: dedupFirst (xs.filter (fun y => decide (y ≠ x)))
termination_by l => l.length
decreasing_by
  simp only [List.length_cons]
  exact Nat.lt_succ_of_le (List.length_filter_le _ _)

/-- Index of the last occurrence of a space, modelling
`strings.LastIndex(s, " ")` (with `none` standing for Go's `-1`). -/
def lastSpaceIdx : List Char → Option Nat
  | [] => none
  | c :: cs =>
    match lastSpaceIdx cs with
    | some i => some (i + 1)
    | none => if c = ' ' then some 0 else none

/-- The ellipsis marker appended by `truncateString`. -/
def ellipsis : String := "..."

/-- Model of `truncateString` from `main.go`: Go's `lastSpace > 0` check means a space
at index 0 (or no space at all) leads to a hard cut at the limit. -/
def truncateString (s : String) (maxLen : Nat) : String :=
  if s.length ≤ maxLen then s
  else
    match lastSpaceIdx (s.data.take maxLen) with
    | some lastSpace =>
      if 0 < lastSpace then String.mk (s.data.take lastSpace) ++ ellipsis
      else String.mk (s.data.take maxLen) ++ ellipsis
    | none => String.mk (s.data.take maxLen) ++ ellipsis

/-- One pass of the inner loop of `rankNewsByRelevance`'s bubble sort:
`sweep c l` performs `c` adjacent compare-and-swap steps from the head of
`l`, swapping whenever the left score is strictly smaller. -/
def sweep : Nat → List NewsItem → List NewsItem
  | 0, l => l
  | _ + 1, [] => []
  | _ + 1, [a] => [a]
  | c + 1, a :: b :: rest =>
    if a.score < b.score then b :: sweep c (a :: rest)
    else a :: sweep c (b :: rest)

/-- The outer loop of the bubble sort: iteration `i` of the Go loop performs
a sweep of `len-i-1` comparisons, so `bubbleGo k` runs the sweeps with
comparison counts `k, k-1, …, 1`. -/
def bubbleGo : Nat → List NewsItem → List NewsItem
  | 0, l => l
  | k + 1, l => bubbleGo k (sweep (k + 1) l)

/-- The adjacent-swap sort inside `rankNewsByRelevance` from `main.go`. -/
def bubbleSortNews (news : List NewsItem) : List NewsItem :=
  bubbleGo (news.length - 1) news

/-- Model of `rankNewsByRelevance` from `main.go`; `maxItems` is
`na.config.MaxNewsItems`. -/
def rankNewsByRelevance (maxItems : Nat) (news : List NewsItem) : List NewsItem :=
  if maxItems < (bubbleSortNews news).length then (bubbleSortNews news).take maxItems
  else bubbleSortNews news

/-- Non-strictly descending order by score. -/
def sortedDesc (l : List NewsItem) : Prop :=
  List.Pairwise (fun x y => y.score ≤ x.score) l

/-- Spec-side reference stable descending sort (insertion sort): each element
is placed before the first already-sorted element whose score is no larger
than its own, so earlier input elements precede equal-scored later ones. -/
def insertDesc (a : NewsItem) : List NewsItem → List NewsItem
  | [] => [a]
  | b :: l => if b.score ≤ a.score then a :: b :: l else b :: insertDesc a l

/-- Spec-side reference stable descending sort of a whole list. -/
def insertionSortDesc (l : List NewsItem) : List NewsItem :=
  l.foldr insertDesc []

/-- The claim C6, formalised at a given input: whenever the string exceeds the
limit and `i` is the last space strictly before the limit, the result cuts at
that space and appends the marker (so it never cuts mid-word). -/
def truncClaimHolds (s : String) (maxLen : Nat) : Prop :=
  maxLen < s.length →
    ∀ i, i < maxLen → s.data.get? i = some ' ' →
      (∀ j, i < j → j < maxLen → s.data.get? j ≠ some ' ') →
      truncateString s maxLen = String.mk (s.data.take i) ++ ellipsis

/-- A raw RSS entry as delivered by the feed parser (`published` is
`PublishedParsed`, absent when the feed carries no timestamp). -/
structure RawFeedItem where
  title : String
  description : String
  link : String
  published : Option Int
deriving DecidableEq, Repr

/-- The `NewsItem` built by `fetchRSSFeed` for a raw entry (a missing
publish date is defaulted to `now`). -/
def feedItemToNews (now : Int) (source : String) (r : RawFeedItem) : NewsItem :=
  { title := r.title, titleRU := "", description := r.description, descriptionRU := ""
    link := r.link, source := source, publishDate := r.published.getD now, score := 0 }

/-- Model of `fetchRSSFeed` from `main.go`, after the feed has been parsed: keeps the
items whose (defaulted) publish date lies within the last 24 hours. -/
def fetchRSSFeed (now : Int) (source : String) (items : List RawFeedItem) : List NewsItem :=
  items.filterMap (fun r =>
    if 24 * 3600 < now - (r.published.getD now) then none
    else some (feedItemToNews now source r))

/-- The list of titles submitted to the title translation call. -/
def titlesToTranslate (news : List NewsItem) : List String :=
  news.map (fun item => item.title)

/-- The list of descriptions submitted to the description translation call:
an empty description is replaced by the literal placeholder. -/
def descriptionsToTranslate (news : List NewsItem) : List String :=
  news.map (fun item =>
    if item.description = "" then "No description available" else item.description)

/-- The loop writing `TitleRU` after a successful title batch: item `i`
receives translation `i` when available and falls back to its own title. -/
def applyTitlesAux (ts : List String) : Nat → List NewsItem → List NewsItem
  | _, [] => []
  | i, item :: rest =>
    { item with titleRU := ts.getD i item.title } :: applyTitlesAux ts (i + 1) rest

/-- The loop writing `DescriptionRU` after a successful description batch. -/
def applyDescsAux (ds : List String) : Nat → List NewsItem → List NewsItem
  | _, [] => []
  | i, item :: rest =>
    { item with descriptionRU := ds.getD i item.description } :: applyDescsAux ds (i + 1) rest

/-- Handling of the title batch result in `TranslateNewsItems`: on failure
every item falls back to its original title. -/
def applyTitlesStage (res : Option (List String)) (news : List NewsItem) : List NewsItem :=
  match res with
  | none => news.map (fun item => { item with titleRU := item.title })
  | some ts => applyTitlesAux ts 0 news

/-- Handling of the description batch result in `TranslateNewsItems`. -/
def applyDescsStage (res : Option (List String)) (news : List NewsItem) : List NewsItem :=
  match res with
  | none => news.map (fun item => { item with descriptionRU := item.description })
  | some ds => applyDescsAux ds 0 news

/-- Model of `TranslateNewsItems` from `main.go`: both batch calls go through the
`translate` parameter; `none` models a failed DeepL call.  Both submitted
batches are computed from the incoming list, as in the Go code. -/
def TranslateNewsItems (translate : List String → Option (List String))
    (news : List NewsItem) : List NewsItem :=
  applyDescsStage (translate (descriptionsToTranslate news))
    (applyTitlesStage (translate (titlesToTranslate news)) news)

/-- One item block of `FormatNewsAsString` (rank `i+1`). -/
def formatNewsItem (i : Nat) (n : NewsItem) : String :=
  let title := if n.titleRU = "" then n.title else n.titleRU
  let description := if n.descriptionRU = "" then n.description else n.descriptionRU
  "📰 **" ++ toString (i + 1) ++ ". " ++ title ++ "**\n"
    ++ "📍 Source: " ++ n.source ++ "\n"
    ++ (if description ≠ "" ∧ description ≠ "No description available"
        then "📝 " ++ truncateString description 150 ++ "\n"
        else "")
    ++ "🔗 " ++ n.link ++ "\n"
    ++ "\n"

/-- Model of `FormatNewsAsString` from `main.go` (`nowStr` stands for the formatted
`time.Now()` in the header). -/
def FormatNewsAsString (nowStr : String) (topNews : List NewsItem)
    (trends : List String) : String :=
  "🇪🇸 **TOP 5 SPAIN NEWS** 🇪🇸\n"
    ++ ("📅 " ++ nowStr ++ "\n")
    ++ "━━━━━━━━━━━━━━━━━━━━━━━━━━━━\n\n"
    ++ String.join (topNews.enum.map (fun p => formatNewsItem p.1 p.2))
    ++ "━━━━━━━━━━━━━━━━━━━━━━━━━━━━\n"
    ++ "🔥 **TRENDING IN SPAIN** 🔥\n\n"
    ++ (if trends.isEmpty then "No trending topics available at this time.\n"
        else String.join ((trends.take 10).map (fun trend => "• " ++ trend ++ "\n")))
    ++ "\n━━━━━━━━━━━━━━━━━━━━━━━━━━━━\n"
    ++ "📊 Sources: BBC Mundo, CNN Español, El País, Europa Press, AP News, Reuters, Fox News, El Universal México, El País México\n"
    ++ "🔍 Trends: Google Trends Spain, X (Twitter) Spain, Mexico Trends"

/-- Model of `AggregateNews` from `main.go`: per-source fetch results are passed in
(`none` for a failed source, which contributes nothing), together with the
trend source results and the translator. -/
def AggregateNews (translate : List String → Option (List String))
    (maxItems : Nat) (sourceResults : List (Option (List NewsItem)))
    (trendResults : List (Option (List String))) :
    Except String (List NewsItem × List String) :=
  let allNews := (sourceResults.filterMap id).flatten
  if allNews.isEmpty then
    Except.error "no news items could be fetched from any source"
  else
    Except.ok
      (TranslateNewsItems translate (rankNewsByRelevance maxItems allNews),
       removeDuplicates (trendResults.filterMap id).flatten)

/-- Model of `Run` from `main.go`: aggregation, formatting, then webhook delivery via
the `publish` parameter; the successful payload is the formatted message. -/
def Run (publish : String → Except String Unit) (nowStr : String)
    (translate : List String → Option (List String)) (maxItems : Nat)
    (sourceResults : List (Option (List NewsItem)))
    (trendResults : List (Option (List String))) : Except String String :=
  match AggregateNews translate maxItems sourceResults trendResults with
  | Except.error e => Except.error ("error aggregating news: " ++ e)
  | Except.ok (topNews, trends) =>
    match publish (FormatNewsAsString nowStr topNews trends) with
    | Except.error e => Except.error ("error sending to webhook: " ++ e)
    | Except.ok _ => Except.ok (FormatNewsAsString nowStr topNews trends)

theorem foldl_if_add (content : String) (c : Int) (ks : List String) :
    ∀ init : Int,
      ks.foldl (fun sc k => if strContains content k then sc + c else sc) init
        = init + c * (ks.countP (fun k => strContains content k) : Int) := by
  induction ks with
  | nil => intro init; simp
  | cons k ks ih =>
    intro init
    simp only [List.foldl_cons, List.countP_cons]
    by_cases h : strContains content k = true
    · rw [if_pos h, ih]
      simp only [h, if_pos]
      push_cast
      ring
    · rw [if_neg (by simp [h]), ih]
      simp [h]

theorem filterMap_if_eq {α β : Type} (p : α → Bool) (f : α → β) (l : List α) :
    l.filterMap (fun a => if p a then some (f a) else none) = (l.filter p).map f := by
  induction l with
  | nil => rfl
  | cons x xs ih =>
    by_cases h : p x = true
    · simp [List.filterMap_cons, List.filter_cons, h, ih]
    · have h' : p x = false := by simpa using h
      simp [List.filterMap_cons, List.filter_cons, h', ih]

/-- C2: the relevance score is the recency bonus (on the age truncated to
whole hours) plus 10 per keyword contained in the lowercased
title+description plus 20 per keyword contained in the lowercased title;
being a pure function of `(now, item, keywords)`, recomputation at the same
instant trivially yields the same value. -/
theorem calculateRelevanceScore_formula (now : Int) (item : NewsItem) (keywords : List String) :
    calculateRelevanceScore now item keywords
      = recencyBonus (Int.tdiv (now - item.publishDate) 3600)
        + 10 * (keywords.countP (fun k => strContains (contentOf item) k) : Int)
        + 20 * (keywords.countP (fun k => strContains (strToLower item.title) k) : Int) := by
  unfold calculateRelevanceScore recencyBonus
  rw [foldl_if_add, foldl_if_add]

/-- C1: the relevance filter returns exactly the items whose lowercased
title+description contains at least one keyword, each annotated at filter
time with its relevance score; every returned item satisfies the membership
condition and no input item satisfying it is dropped. -/
theorem filterSpainNews_correct (now : Int) (news : List NewsItem) :
    filterSpainNews now news
        = (news.filter (fun item => spainKeywords.any (fun k => strContains (contentOf item) k))).map
            (fun item => { item with score := calculateRelevanceScore now item spainKeywords })
      ∧ (∀ item ∈ filterSpainNews now news,
          ∃ k ∈ spainKeywords, strContains (contentOf item) k = true)
      ∧ (∀ item ∈ news, (∃ k ∈ spainKeywords, strContains (contentOf item) k = true) →
          { item with score := calculateRelevanceScore now item spainKeywords }
            ∈ filterSpainNews now news) := by
  refine ⟨filterMap_if_eq _ _ news, ?_, ?_⟩
  · intro item hmem
    unfold filterSpainNews at hmem
    obtain ⟨x, hx, hfx⟩ := List.mem_filterMap.mp hmem
    by_cases h : (spainKeywords.any fun keyword => strContains (contentOf x) keyword) = true
    · rw [if_pos h] at hfx
      obtain ⟨k, hk, hck⟩ := List.any_eq_true.mp h
      cases hfx
      exact ⟨k, hk, hck⟩
    · rw [if_neg h] at hfx
      cases hfx
  · intro item hmem hex
    obtain ⟨k, hk, hck⟩ := hex
    unfold filterSpainNews
    refine List.mem_filterMap.mpr ⟨item, hmem, ?_⟩
    rw [if_pos (List.any_eq_true.mpr ⟨k, hk, hck⟩)]

theorem filterSpainNews_correct_witness :
    filterSpainNews 0 [mkItem "Madrid hoy" "" 0, mkItem "weather" "" 0]
        = [{ mkItem "Madrid hoy" "" 0 with score := 130 }]
      ∧ (∃ k ∈ spainKeywords,
          strContains (contentOf { mkItem "Madrid hoy" "" 0 with score := 130 }) k = true) := by
  have h := filterSpainNews_correct 0 [mkItem "Madrid hoy" "" 0, mkItem "weather" "" 0]
  constructor
  · rw [h.1]
    decide
  · refine h.2.1 _ ?_
    rw [h.1]
    decide

theorem calculateRelevanceScore_formula_witness :
    calculateRelevanceScore 0 (mkItem "Madrid hoy" "" 0) spainKeywords = 130 := by
  rw [calculateRelevanceScore_formula]
  decide

theorem removeDupAux_sublist (seen : List String) (l : List String) :
    List.Sublist (removeDupAux seen l) l := by
  induction l generalizing seen with
  | nil => exact List.Sublist.refl _
  | cons x xs ih =>
    unfold removeDupAux
    by_cases h : x ∈ seen
    · rw [if_pos h]
      exact List.Sublist.cons x (ih seen)
    · rw [if_neg h]
      exact List.Sublist.cons₂ x (ih (x :: seen))

theorem removeDupAux_mem (seen : List String) (l : List String) (s : String) :
    s ∈ removeDupAux seen l ↔ s ∈ l ∧ s ∉ seen := by
  induction l generalizing seen with
  | nil => simp [removeDupAux]
  | cons x xs ih =>
    unfold removeDupAux
    by_cases h : x ∈ seen
    · rw [if_pos h, ih]
      constructor
      · rintro ⟨hs, hns⟩
        exact ⟨List.mem_cons_of_mem _ hs, hns⟩
      · rintro ⟨hs, hns⟩
        rcases List.mem_cons.mp hs with rfl | hs'
        · exact absurd h hns
        · exact ⟨hs', hns⟩
    · rw [if_neg h]
      simp only [List.mem_cons, ih, List.mem_cons]
      by_cases hsx : s = x
      · subst hsx
        simp [h]
      · simp [hsx]

theorem removeDupAux_nodup (seen : List String) (l : List String) :
    (removeDupAux seen l).Nodup := by
  induction l generalizing seen with
  | nil => simp [removeDupAux]
  | cons x xs ih =>
    unfold removeDupAux
    by_cases h : x ∈ seen
    · rw [if_pos h]; exact ih seen
    · rw [if_neg h]
      refine List.Nodup.cons ?_ (ih (x :: seen))
      intro hx
      exact ((removeDupAux_mem (x :: seen) xs x).mp hx).2 (List.mem_cons_self _ _)

theorem removeDupAux_eq_dedupFirst (l : List String) :
    ∀ seen : List String,
      removeDupAux seen l = dedupFirst (l.filter (fun y => decide (y ∉ seen))) := by
  induction l with
  | nil =>
    intro seen
    rw [List.filter_nil]
    simp [removeDupAux, dedupFirst]
  | cons x xs ih =>
    intro seen
    unfold removeDupAux
    by_cases h : x ∈ seen
    · rw [if_pos h, List.filter_cons, if_neg (by simp [h]), ih]
    · rw [if_neg h, List.filter_cons, if_pos (by simp [h])]
      simp only [dedupFirst]
      rw [ih (x :: seen)]
      have hfun : (xs.filter (fun y => decide (y ∉ seen))).filter (fun y => decide (y ≠ x))
          = xs.filter (fun y => decide (y ∉ x :: seen)) := by
        rw [List.filter_filter]
        refine List.filter_congr ?_
        intro a _
        by_cases hax : a = x
        · simp [hax]
        · by_cases has : a ∈ seen <;> simp [List.mem_cons, hax, has]
      rw [hfun]

/-- C5: trend deduplication keeps the first occurrence of each string,
preserves the overall order (the result is a sublist of the input with the
same members), yields each distinct label exactly once, and on the
concatenation of the per-source lists `[["a","b"], ["b","c"]]` produces
`["a","b","c"]`. -/
theorem removeDuplicates_correct (l : List String) :
    removeDuplicates (List.flatten [["a", "b"], ["b", "c"]]) = ["a", "b", "c"]
      ∧ removeDuplicates l = dedupFirst l
      ∧ List.Sublist (removeDuplicates l) l
      ∧ (∀ s : String, s ∈ removeDuplicates l ↔ s ∈ l)
      ∧ (∀ s ∈ removeDuplicates l, (removeDuplicates l).count s = 1) := by
  refine ⟨by decide, ?_, removeDupAux_sublist [] l, ?_, ?_⟩
  · rw [removeDuplicates, removeDupAux_eq_dedupFirst l []]
    have hl : l.filter (fun y => decide (y ∉ ([] : List String))) = l := by simp
    rw [hl]
  · intro s
    rw [removeDuplicates, removeDupAux_mem]
    simp
  · intro s hs
    exact List.count_eq_one_of_mem (removeDupAux_nodup [] l) hs

theorem removeDuplicates_correct_witness :
    removeDuplicates ["a", "b", "b", "c"] = ["a", "b", "c"]
      ∧ ("b" ∈ removeDuplicates ["a", "b", "b", "c"] ↔ "b" ∈ ["a", "b", "b", "c"])
      ∧ (removeDuplicates ["a", "b", "b", "c"]).count "b" = 1 := by
  have h := removeDuplicates_correct ["a", "b", "b", "c"]
  exact ⟨by decide, h.2.2.2.1 "b", h.2.2.2.2 "b" (by decide)⟩

theorem lastSpaceIdx_eq_none (l : List Char) (h : ∀ j, l.get? j ≠ some ' ') :
    lastSpaceIdx l = none := by
  induction l with
  | nil => rfl
  | cons c cs ih =>
    unfold lastSpaceIdx
    rw [ih (fun j => h (j + 1))]
    have hc : ¬ c = ' ' := by
      intro hc
      exact h 0 (by simp [hc])
    rw [if_neg hc]

theorem lastSpaceIdx_eq_some (l : List Char) :
    ∀ i : Nat, l.get? i = some ' ' → (∀ j, i < j → l.get? j ≠ some ' ') →
      lastSpaceIdx l = some i := by
  induction l with
  | nil => intro i hi _; simp at hi
  | cons c cs ih =>
    intro i hi hlast
    match i with
    | 0 =>
      have hc : c = ' ' := by simpa using hi
      unfold lastSpaceIdx
      rw [lastSpaceIdx_eq_none cs (fun j => hlast (j + 1) (Nat.succ_pos j))]
      rw [if_pos hc]
    | i + 1 =>
      have hi' : cs.get? i = some ' ' := by simpa using hi
      have hlast' : ∀ j, i < j → cs.get? j ≠ some ' ' := by
        intro j hj
        have := hlast (j + 1) (Nat.succ_lt_succ hj)
        simpa using this
      unfold lastSpaceIdx
      rw [ih i hi' hlast']

/-- C6 counterexample: for the input `" abcdefghijkl"` with limit 5, the
prefix before the limit contains a space (its last space is at index 0), yet
the code hard-cuts mid-word because Go's `lastSpace > 0` test rejects
index 0, so the claimed cut-at-last-space behaviour fails. -/
theorem truncateString_claim_counterexample :
    ¬ truncClaimHolds " abcdefghijkl" 5
      ∧ truncateString " abcdefghijkl" 5 = " abcd..." := by
  constructor
  · intro h
    have h0 := h (by decide) 0 (by decide) (by decide)
      (by
        intro j h1 h2
        interval_cases j <;> decide)
    revert h0
    decide
  · decide

/-- C6 (amended): when the string exceeds the limit, the code cuts at the
last space before the limit and appends the marker only when that space sits
at a positive index; when the prefix has no space at a positive index
(including a lone space at index 0), it hard-cuts at the limit and appends
the marker; strings within the limit are returned unchanged. -/
theorem truncateString_amended (s : String) (m : Nat) :
    (∀ i, 0 < i → i < m → m < s.length → s.data.get? i = some ' ' →
        (∀ j, i < j → j < m → s.data.get? j ≠ some ' ') →
        truncateString s m = String.mk (s.data.take i) ++ ellipsis)
      ∧ (m < s.length → (∀ j, 0 < j → j < m → s.data.get? j ≠ some ' ') →
        truncateString s m = String.mk (s.data.take m) ++ ellipsis)
      ∧ (s.length ≤ m → truncateString s m = s) := by
  have hlen : s.length = s.data.length := rfl
  refine ⟨?_, ?_, ?_⟩
  · intro i h0 him hm hsp hlast
    have hidx : lastSpaceIdx (s.data.take m) = some i := by
      refine lastSpaceIdx_eq_some _ i ?_ ?_
      · rw [List.get?_take him]
        exact hsp
      · intro j hj
        by_cases hjm : j < m
        · rw [List.get?_take hjm]
          exact hlast j hj hjm
        · rw [List.get?_eq_none.mpr]
          · simp
          · rw [List.length_take]
            omega
    rw [truncateString, if_neg (by omega), hidx]
    dsimp only
    rw [if_pos h0]
  · intro hm hnosp
    by_cases hsp0 : s.data.get? 0 = some ' '
    · rcases Nat.eq_zero_or_pos m with rfl | hmpos
      · have hidx : lastSpaceIdx (s.data.take 0) = none := by
          rw [List.take_zero]
          rfl
        rw [truncateString, if_neg (by omega), hidx]
      · have hidx : lastSpaceIdx (s.data.take m) = some 0 := by
          refine lastSpaceIdx_eq_some _ 0 ?_ ?_
          · rw [List.get?_take hmpos]
            exact hsp0
          · intro j hj
            by_cases hjm : j < m
            · rw [List.get?_take hjm]
              exact hnosp j hj hjm
            · rw [List.get?_eq_none.mpr]
              · simp
              · rw [List.length_take]
                omega
        rw [truncateString, if_neg (by omega), hidx]
        dsimp only
        rw [if_neg (by omega)]
    · have hidx : lastSpaceIdx (s.data.take m) = none := by
        refine lastSpaceIdx_eq_none _ ?_
        intro j
        by_cases hjm : j < m
        · rw [List.get?_take hjm]
          rcases Nat.eq_zero_or_pos j with rfl | hjpos
          · exact hsp0
          · exact hnosp j hjpos hjm
        · rw [List.get?_eq_none.mpr]
          · simp
          · rw [List.length_take]
            omega
      rw [truncateString, if_neg (by omega), hidx]
  · intro hm
    rw [truncateString, if_pos hm]

theorem truncateString_amended_witness :
    truncateString "The quick brown fox" 12 = "The quick..."
      ∧ truncateString "no_spaces_here_at_all" 6 = "no_spa..." := by
  constructor
  · have h := (truncateString_amended "The quick brown fox" 12).1 9
      (by decide) (by decide) (by decide) (by decide)
      (by
        intro j h1 h2
        interval_cases j <;> decide)
    rw [h]
    decide
  · have h := (truncateString_amended "no_spaces_here_at_all" 6).2.1
      (by decide)
      (by
        intro j h1 h2
        interval_cases j <;> decide)
    rw [h]
    decide

theorem sweep_length (c : Nat) (l : List NewsItem) : (sweep c l).length = l.length := by
  induction c, l using sweep.induct with
  | case1 l => rfl
  | case2 c => rfl
  | case3 c a => rfl
  | case4 c a b rest h ih =>
    simp only [sweep, if_pos h]
    simpa using ih
  | case5 c a b rest h ih =>
    simp only [sweep, if_neg (by omega : ¬ a.score < b.score)]
    simpa using ih

theorem sweep_filter (c : Nat) (l : List NewsItem) (s : Int) :
    (sweep c l).filter (fun x => decide (x.score = s))
      = l.filter (fun x => decide (x.score = s)) := by
  induction c, l using sweep.induct with
  | case1 l => rfl
  | case2 c => rfl
  | case3 c a => rfl
  | case4 c a b rest h ih =>
    simp only [sweep, if_pos h]
    by_cases hb : b.score = s
    · have ha : ¬ a.score = s := by omega
      simp [List.filter_cons, ha, hb, ih]
    · simp [List.filter_cons, hb, ih]
  | case5 c a b rest h ih =>
    simp only [sweep, if_neg (by omega : ¬ a.score < b.score)]
    by_cases ha : a.score = s
    · simp [List.filter_cons, ha, ih]
    · simp [List.filter_cons, ha, ih]

theorem sweep_eq_append (c : Nat) :
    ∀ (p su : List NewsItem), p.length = c + 1 → sweep c (p ++ su) = sweep c p ++ su := by
  induction c with
  | zero => intro p su _; rfl
  | succ c ih =>
    intro p su hp
    match p with
    | a :: b :: p' =>
      have hp' : (a :: p').length = c + 1 := by simpa using hp
      by_cases h : a.score < b.score
      · simp only [List.cons_append, sweep, if_pos h]
        have h2 := ih (a :: p') su hp'
        simp only [List.cons_append] at h2
        show b :: sweep c (a :: (p' ++ su)) = b :: (sweep c (a :: p') ++ su)
        rw [h2]
      · simp only [List.cons_append, sweep, if_neg h]
        have h2 := ih (b :: p') su (by simpa using hp)
        simp only [List.cons_append] at h2
        show a :: sweep c (b :: (p' ++ su)) = a :: (sweep c (b :: p') ++ su)
        rw [h2]

theorem sweep_spec (r : List NewsItem) :
    ∀ (a : NewsItem) (c : Nat), r.length ≤ c →
      ∃ q mm, sweep c (a :: r) = q ++ [mm] ∧ q.length = r.length
        ∧ (mm = a ∨ mm ∈ r) ∧ mm.score ≤ a.score
        ∧ (∀ x ∈ r, mm.score ≤ x.score) ∧ (∀ x ∈ q, x = a ∨ x ∈ r) := by
  induction r with
  | nil =>
    intro a c _
    refine ⟨[], a, ?_, rfl, Or.inl rfl, le_refl _, by simp, by simp⟩
    match c with
    | 0 => rfl
    | c + 1 => rfl
  | cons b r' ih =>
    intro a c hc
    obtain ⟨c', rfl⟩ : ∃ c', c = c' + 1 := ⟨c - 1, by simp at hc; omega⟩
    have hc' : r'.length ≤ c' := by simp at hc; omega
    by_cases h : a.score < b.score
    · obtain ⟨q', mm, heq, hlen, hmm, hma, hall, hq⟩ := ih a c' hc'
      refine ⟨b :: q', mm, ?_, ?_, ?_, hma, ?_, ?_⟩
      · simp only [sweep, if_pos h, heq, List.cons_append]
      · simpa using hlen
      · rcases hmm with rfl | hmm
        · exact Or.inl rfl
        · exact Or.inr (List.mem_cons_of_mem _ hmm)
      · intro x hx
        rcases List.mem_cons.mp hx with rfl | hx'
        · omega
        · exact hall x hx'
      · intro x hx
        rcases List.mem_cons.mp hx with rfl | hx'
        · exact Or.inr (List.mem_cons_self _ _)
        · rcases hq x hx' with rfl | hx''
          · exact Or.inl rfl
          · exact Or.inr (List.mem_cons_of_mem _ hx'')
    · obtain ⟨q', mm, heq, hlen, hmm, hmb, hall, hq⟩ := ih b c' hc'
      refine ⟨a :: q', mm, ?_, ?_, ?_, ?_, ?_, ?_⟩
      · simp only [sweep, if_neg h, heq, List.cons_append]
      · simpa using hlen
      · refine Or.inr ?_
        rcases hmm with rfl | hmm
        · exact List.mem_cons_self _ _
        · exact List.mem_cons_of_mem _ hmm
      · omega
      · intro x hx
        rcases List.mem_cons.mp hx with rfl | hx'
        · exact hmb
        · exact hall x hx'
      · intro x hx
        rcases List.mem_cons.mp hx with rfl | hx'
        · exact Or.inl rfl
        · rcases hq x hx' with rfl | hx''
          · exact Or.inr (List.mem_cons_self _ _)
          · exact Or.inr (List.mem_cons_of_mem _ hx'')

theorem bubbleGo_length (k : Nat) :
    ∀ l : List NewsItem, (bubbleGo k l).length = l.length := by
  induction k with
  | zero => intro l; rfl
  | succ k ih =>
    intro l
    rw [bubbleGo, ih, sweep_length]

theorem bubbleGo_filter (k : Nat) :
    ∀ (l : List NewsItem) (s : Int),
      (bubbleGo k l).filter (fun x => decide (x.score = s))
        = l.filter (fun x => decide (x.score = s)) := by
  induction k with
  | zero => intro l s; rfl
  | succ k ih =>
    intro l s
    rw [bubbleGo, ih, sweep_filter]

theorem bubbleGo_sorted (k : Nat) :
    ∀ l : List NewsItem,
      sortedDesc (l.drop (k + 1)) →
      (∀ x ∈ l.take (k + 1), ∀ y ∈ l.drop (k + 1), y.score ≤ x.score) →
      sortedDesc (bubbleGo k l) := by
  induction k with
  | zero =>
    intro l h1 h2
    match l with
    | [] => exact List.Pairwise.nil
    | a :: t =>
      refine List.Pairwise.cons ?_ ?_
      · intro y hy
        exact h2 a (by simp) y hy
      · exact h1
  | succ k ih =>
    intro l h1 h2
    rw [bubbleGo]
    by_cases hl : l.length ≤ k + 1
    · refine ih (sweep (k + 1) l) ?_ ?_
      · rw [List.drop_eq_nil_of_le (by rw [sweep_length]; omega)]
        exact List.Pairwise.nil
      · intro x _ y hy
        rw [List.drop_eq_nil_of_le (by rw [sweep_length]; omega)] at hy
        simp at hy
    · push_neg at hl
      have hpl : (l.take (k + 2)).length = k + 2 := by
        rw [List.length_take]
        omega
      obtain ⟨a, r, hpr⟩ : ∃ a r, l.take (k + 2) = a :: r := by
        match hmatch : l.take (k + 2) with
        | [] =>
          rw [hmatch] at hpl
          simp at hpl
        | a :: r => exact ⟨a, r, rfl⟩
      have hrl : r.length = k + 1 := by
        rw [hpr] at hpl
        simpa using hpl
      obtain ⟨q, mm, hqeq, hqlen, hmm, hma, hall, hq⟩ := sweep_spec r a (k + 1) (by omega)
      have hsweep : sweep (k + 1) l = (q ++ [mm]) ++ l.drop (k + 2) := by
        conv_lhs => rw [← List.take_append_drop (k + 2) l, hpr]
        rw [sweep_eq_append (k + 1) (a :: r) (l.drop (k + 2)) (by simp [hrl])]
        rw [hqeq]
      have hmmp : mm ∈ l.take (k + 2) := by
        rw [hpr]
        rcases hmm with rfl | hmm
        · exact List.mem_cons_self _ _
        · exact List.mem_cons_of_mem _ hmm
      have hdrop : (sweep (k + 1) l).drop (k + 1) = mm :: l.drop (k + 2) := by
        rw [hsweep, List.append_assoc]
        exact List.drop_left' (by omega)
      have htake : (sweep (k + 1) l).take (k + 1) = q := by
        rw [hsweep, List.append_assoc]
        exact List.take_left' (by omega)
      refine ih (sweep (k + 1) l) ?_ ?_
      · rw [hdrop]
        refine List.Pairwise.cons ?_ h1
        intro y hy
        exact h2 mm hmmp y hy
      · intro x hx y hy
        rw [htake] at hx
        rw [hdrop] at hy
        have hxp : x ∈ l.take (k + 2) := by
          rw [hpr]
          rcases hq x hx with rfl | hx'
          · exact List.mem_cons_self _ _
          · exact List.mem_cons_of_mem _ hx'
        rcases List.mem_cons.mp hy with rfl | hy'
        · rcases hq x hx with rfl | hx'
          · exact hma
          · exact hall x hx'
        · exact h2 x hxp y hy'

theorem bubbleSortNews_sorted (l : List NewsItem) : sortedDesc (bubbleSortNews l) := by
  rw [bubbleSortNews]
  refine bubbleGo_sorted (l.length - 1) l ?_ ?_
  · match l with
    | [] => exact List.Pairwise.nil
    | a :: t =>
      rw [List.drop_eq_nil_of_le (by simp)]
      exact List.Pairwise.nil
  · intro x _ y hy
    match l with
    | [] => simp at hy
    | a :: t =>
      rw [List.drop_eq_nil_of_le (by simp)] at hy
      simp at hy

theorem bubbleSortNews_filter (l : List NewsItem) (s : Int) :
    (bubbleSortNews l).filter (fun x => decide (x.score = s))
      = l.filter (fun x => decide (x.score = s)) :=
  bubbleGo_filter (l.length - 1) l s

theorem bubbleSortNews_length (l : List NewsItem) :
    (bubbleSortNews l).length = l.length :=
  bubbleGo_length (l.length - 1) l

theorem sorted_eq_of_filter_eq :
    ∀ (l₁ l₂ : List NewsItem), sortedDesc l₁ → sortedDesc l₂ →
      (∀ s : Int, l₁.filter (fun x => decide (x.score = s))
        = l₂.filter (fun x => decide (x.score = s))) →
      l₁ = l₂ := by
  intro l₁
  induction l₁ with
  | nil =>
    intro l₂ _ _ h
    match l₂ with
    | [] => rfl
    | b :: t₂ =>
      have hb := h b.score
      simp [List.filter_cons] at hb
  | cons a t₁ ih =>
    intro l₂ hs₁ hs₂ h
    match l₂ with
    | [] =>
      have ha := h a.score
      simp [List.filter_cons] at ha
    | b :: t₂ =>
      have hab : a = b := by
        by_cases hsc : b.score = a.score
        · have ha := h a.score
          rw [List.filter_cons, List.filter_cons] at ha
          rw [if_pos (by simp), if_pos (by simp [hsc])] at ha
          exact (List.cons.injEq _ _ _ _ ▸ ha).1
        · exfalso
          have hle1 : a.score ≤ b.score := by
            have ha := h a.score
            rw [List.filter_cons, List.filter_cons] at ha
            rw [if_pos (by simp), if_neg (by simp [hsc])] at ha
            have hmem : a ∈ t₂.filter (fun x => decide (x.score = a.score)) := by
              rw [← ha]
              exact List.mem_cons_self _ _
            have hmem' : a ∈ t₂ := List.mem_of_mem_filter hmem
            exact (List.pairwise_cons.mp hs₂).1 a hmem'
          have hle2 : b.score ≤ a.score := by
            have hb := h b.score
            rw [List.filter_cons, List.filter_cons] at hb
            rw [if_neg (by simp; omega), if_pos (by simp)] at hb
            have hmem : b ∈ t₁.filter (fun x => decide (x.score = b.score)) := by
              rw [hb]
              exact List.mem_cons_self _ _
            have hmem' : b ∈ t₁ := List.mem_of_mem_filter hmem
            exact (List.pairwise_cons.mp hs₁).1 b hmem'
          omega
      subst hab
      have htails : t₁ = t₂ := by
        refine ih t₂ (List.Pairwise.of_cons hs₁) (List.Pairwise.of_cons hs₂) ?_
        intro s
        have hs := h s
        rw [List.filter_cons, List.filter_cons] at hs
        by_cases hsc : a.score = s
        · rw [if_pos (by simp [hsc]), if_pos (by simp [hsc])] at hs
          exact (List.cons.injEq _ _ _ _ ▸ hs).2
        · rw [if_neg (by simp [hsc]), if_neg (by simp [hsc])] at hs
          exact hs
      rw [htails]

theorem insertDesc_filter (a : NewsItem) (l : List NewsItem) (s : Int) :
    (insertDesc a l).filter (fun x => decide (x.score = s))
      = if a.score = s
        then a :: l.filter (fun x => decide (x.score = s))
        else l.filter (fun x => decide (x.score = s)) := by
  induction l with
  | nil =>
    by_cases ha : a.score = s <;> simp [insertDesc, List.filter_cons, ha]
  | cons b l' ih =>
    rw [insertDesc]
    by_cases hba : b.score ≤ a.score
    · rw [if_pos hba]
      by_cases ha : a.score = s <;> simp [List.filter_cons, ha]
    · rw [if_neg hba]
      rw [List.filter_cons, List.filter_cons, ih]
      by_cases ha : a.score = s
      · have hb : ¬ b.score = s := by omega
        simp [ha, hb]
      · by_cases hb : b.score = s <;> simp [ha, hb]

theorem insertDesc_mem (a x : NewsItem) (l : List NewsItem) :
    x ∈ insertDesc a l ↔ x = a ∨ x ∈ l := by
  induction l with
  | nil => simp [insertDesc]
  | cons b l' ih =>
    rw [insertDesc]
    by_cases hba : b.score ≤ a.score
    · rw [if_pos hba]
      simp only [List.mem_cons]
    · rw [if_neg hba]
      simp only [List.mem_cons, ih]
      tauto

theorem insertDesc_sorted (a : NewsItem) (l : List NewsItem) (hl : sortedDesc l) :
    sortedDesc (insertDesc a l) := by
  induction l with
  | nil =>
    refine List.Pairwise.cons ?_ List.Pairwise.nil
    intro y hy
    simp at hy
  | cons b l' ih =>
    rw [insertDesc]
    have hb' := List.pairwise_cons.mp hl
    by_cases hba : b.score ≤ a.score
    · rw [if_pos hba]
      refine List.Pairwise.cons ?_ hl
      intro y hy
      rcases List.mem_cons.mp hy with rfl | hy'
      · exact hba
      · exact le_trans (hb'.1 y hy') hba
    · rw [if_neg hba]
      refine List.Pairwise.cons ?_ (ih hb'.2)
      intro y hy
      rcases (insertDesc_mem a y l').mp hy with rfl | hy'
      · omega
      · exact hb'.1 y hy'

theorem insertionSortDesc_sorted (l : List NewsItem) : sortedDesc (insertionSortDesc l) := by
  induction l with
  | nil => exact List.Pairwise.nil
  | cons x xs ih =>
    rw [insertionSortDesc, List.foldr_cons]
    exact insertDesc_sorted x _ ih

theorem insertionSortDesc_filter (l : List NewsItem) (s : Int) :
    (insertionSortDesc l).filter (fun x => decide (x.score = s))
      = l.filter (fun x => decide (x.score = s)) := by
  induction l with
  | nil => rfl
  | cons x xs ih =>
    rw [insertionSortDesc, List.foldr_cons]
    rw [insertDesc_filter]
    by_cases hx : x.score = s
    · rw [if_pos hx]
      rw [show List.foldr insertDesc [] xs = insertionSortDesc xs from rfl, ih]
      rw [List.filter_cons, if_pos (by simp [hx])]
    · rw [if_neg hx]
      rw [show List.foldr insertDesc [] xs = insertionSortDesc xs from rfl, ih]
      rw [List.filter_cons, if_neg (by simp [hx])]

/-- C3: the ranking step's adjacent-swap sort orders items by score
descending and is stable: for every score, the output's subsequence of items
with that score equals the input's, so the sort reproduces the reference
stable descending insertion sort and any stable descending sort of the input
(any descending list with the same per-score subsequences). -/
theorem rankNews_sort_stable (l l₂ : List NewsItem)
    (h1 : sortedDesc l₂)
    (h2 : ∀ s : Int, l₂.filter (fun x => decide (x.score = s))
      = l.filter (fun x => decide (x.score = s))) :
    sortedDesc (bubbleSortNews l)
      ∧ (∀ s : Int, (bubbleSortNews l).filter (fun x => decide (x.score = s))
          = l.filter (fun x => decide (x.score = s)))
      ∧ bubbleSortNews l = insertionSortDesc l
      ∧ bubbleSortNews l = l₂ := by
  refine ⟨bubbleSortNews_sorted l, fun s => bubbleSortNews_filter l s, ?_, ?_⟩
  · exact sorted_eq_of_filter_eq _ _ (bubbleSortNews_sorted l) (insertionSortDesc_sorted l)
      (fun s => (bubbleSortNews_filter l s).trans (insertionSortDesc_filter l s).symm)
  · exact sorted_eq_of_filter_eq _ _ (bubbleSortNews_sorted l) h1
      (fun s => (bubbleSortNews_filter l s).trans (h2 s).symm)

theorem rankNews_sort_stable_witness :
    bubbleSortNews
        [{ mkItem "b" "" 0 with score := 5 }, { mkItem "a" "" 0 with score := 3 }]
      = [{ mkItem "b" "" 0 with score := 5 }, { mkItem "a" "" 0 with score := 3 }]
      ∧ bubbleSortNews
          [{ mkItem "b" "" 0 with score := 5 }, { mkItem "a" "" 0 with score := 3 }]
        = insertionSortDesc
            [{ mkItem "b" "" 0 with score := 5 }, { mkItem "a" "" 0 with score := 3 }] := by
  have h := rankNews_sort_stable
    [{ mkItem "b" "" 0 with score := 5 }, { mkItem "a" "" 0 with score := 3 }]
    [{ mkItem "b" "" 0 with score := 5 }, { mkItem "a" "" 0 with score := 3 }]
    (by unfold sortedDesc; decide) (fun s => rfl)
  exact ⟨h.2.2.2, h.2.2.1⟩

/-- C4: the ranking result's length is `min inputCount maxItems`; it is the
first `maxItems` entries of the sorted list (the whole sorted list when the
input is not longer), and the configuration built by `NewNewsAggregator`
defaults `MaxNewsItems` to 5. -/
theorem rankNewsByRelevance_length (maxItems : Nat) (news : List NewsItem)
    (webhookURL deeplAPIKey : String) :
    (rankNewsByRelevance maxItems news).length = min news.length maxItems
      ∧ rankNewsByRelevance maxItems news = (bubbleSortNews news).take maxItems
      ∧ (news.length ≤ maxItems → rankNewsByRelevance maxItems news = bubbleSortNews news)
      ∧ (NewNewsAggregator webhookURL deeplAPIKey).maxNewsItems = 5 := by
  have htake : rankNewsByRelevance maxItems news = (bubbleSortNews news).take maxItems := by
    rw [rankNewsByRelevance]
    by_cases h : maxItems < (bubbleSortNews news).length
    · rw [if_pos h]
    · rw [if_neg h]
      rw [List.take_of_length_le (by omega)]
  refine ⟨?_, htake, ?_, rfl⟩
  · rw [htake, List.length_take, bubbleSortNews_length]
    omega
  · intro hle
    rw [htake, List.take_of_length_le (by rw [bubbleSortNews_length]; omega)]

theorem rankNewsByRelevance_length_witness :
    (rankNewsByRelevance 5 [mkItem "x" "" 0, mkItem "y" "" 0]).length = 2
      ∧ (NewNewsAggregator "url" "key").maxNewsItems = 5 := by
  have h := rankNewsByRelevance_length 5 [mkItem "x" "" 0, mkItem "y" "" 0] "url" "key"
  exact ⟨h.1.trans (by norm_num), h.2.2.2⟩

theorem filterMap_sublist_map {α β : Type} (f : α → Option β) (g : α → β)
    (h : ∀ a b, f a = some b → b = g a) (l : List α) :
    List.Sublist (l.filterMap f) (l.map g) := by
  induction l with
  | nil => simp
  | cons x xs ih =>
    rw [List.filterMap_cons, List.map_cons]
    cases hfx : f x with
    | none => exact List.Sublist.cons _ ih
    | some b =>
      rw [h x b hfx]
      exact List.Sublist.cons₂ _ ih

/-- C8: every item kept by the feed fetch is within the 24-hour freshness
window and tagged with the source; an item older than 24 hours is dropped;
an item within the window is kept with its own timestamp; an item lacking a
timestamp is kept and assigned the current instant; and the output consists
only of (images of) input items, in input order. -/
theorem fetchRSSFeed_freshness (now : Int) (source : String) (items : List RawFeedItem) :
    (∀ n ∈ fetchRSSFeed now source items,
        now - n.publishDate ≤ 24 * 3600 ∧ n.source = source)
      ∧ (∀ r ∈ items, ∀ t, r.published = some t → 24 * 3600 < now - t →
          feedItemToNews now source r ∉ fetchRSSFeed now source items)
      ∧ (∀ r ∈ items, ∀ t, r.published = some t → now - t ≤ 24 * 3600 →
          feedItemToNews now source r ∈ fetchRSSFeed now source items
            ∧ (feedItemToNews now source r).publishDate = t)
      ∧ (∀ r ∈ items, r.published = none →
          feedItemToNews now source r ∈ fetchRSSFeed now source items
            ∧ (feedItemToNews now source r).publishDate = now)
      ∧ List.Sublist (fetchRSSFeed now source items)
          (items.map (feedItemToNews now source)) := by
  have hkept : ∀ n ∈ fetchRSSFeed now source items,
      now - n.publishDate ≤ 24 * 3600 ∧ n.source = source := by
    intro n hn
    obtain ⟨r, _, hfr⟩ := List.mem_filterMap.mp hn
    by_cases hc : 24 * 3600 < now - (r.published.getD now)
    · rw [if_pos hc] at hfr
      cases hfr
    · rw [if_neg hc] at hfr
      cases hfr
      exact ⟨by simp only [feedItemToNews]; omega, rfl⟩
  refine ⟨hkept, ?_, ?_, ?_, ?_⟩
  · intro r _ t hpub hold hmem
    have h := (hkept _ hmem).1
    rw [feedItemToNews, hpub] at h
    simp only [Option.getD_some] at h
    omega
  · intro r hr t hpub hfresh
    constructor
    · refine List.mem_filterMap.mpr ⟨r, hr, ?_⟩
      rw [if_neg (by rw [hpub]; simp only [Option.getD_some]; omega)]
    · rw [feedItemToNews, hpub]
      rfl
  · intro r hr hpub
    constructor
    · refine List.mem_filterMap.mpr ⟨r, hr, ?_⟩
      rw [if_neg (by rw [hpub]; simp only [Option.getD_none]; omega)]
    · rw [feedItemToNews, hpub]
      rfl
  · refine filterMap_sublist_map _ _ ?_ items
    intro r n hfr
    by_cases hc : 24 * 3600 < now - (r.published.getD now)
    · rw [if_pos hc] at hfr
      cases hfr
    · rw [if_neg hc] at hfr
      cases hfr
      rfl

theorem fetchRSSFeed_freshness_witness :
    feedItemToNews 100000 "src" ⟨"recent", "d", "l", some 90000⟩
        ∈ fetchRSSFeed 100000 "src"
            [⟨"recent", "d", "l", some 90000⟩, ⟨"old", "d", "l", some 0⟩, ⟨"nodate", "d", "l", none⟩]
      ∧ feedItemToNews 100000 "src" ⟨"old", "d", "l", some 0⟩
          ∉ fetchRSSFeed 100000 "src"
              [⟨"recent", "d", "l", some 90000⟩, ⟨"old", "d", "l", some 0⟩, ⟨"nodate", "d", "l", none⟩]
      ∧ feedItemToNews 100000 "src" ⟨"nodate", "d", "l", none⟩
          ∈ fetchRSSFeed 100000 "src"
              [⟨"recent", "d", "l", some 90000⟩, ⟨"old", "d", "l", some 0⟩, ⟨"nodate", "d", "l", none⟩]
      ∧ (feedItemToNews 100000 "src" ⟨"nodate", "d", "l", none⟩).publishDate = 100000 := by
  have h := fetchRSSFeed_freshness 100000 "src"
    [⟨"recent", "d", "l", some 90000⟩, ⟨"old", "d", "l", some 0⟩, ⟨"nodate", "d", "l", none⟩]
  refine ⟨?_, ?_, ?_, ?_⟩
  · exact (h.2.2.1 _ (by decide) 90000 rfl (by decide)).1
  · exact h.2.1 _ (by decide) 0 rfl (by decide)
  · exact (h.2.2.2.1 _ (by decide) rfl).1
  · exact (h.2.2.2.1 _ (by decide) rfl).2

theorem applyTitlesAux_length (ts : List String) :
    ∀ (news : List NewsItem) (i : Nat), (applyTitlesAux ts i news).length = news.length := by
  intro news
  induction news with
  | nil => intro i; rfl
  | cons x xs ih =>
    intro i
    simp [applyTitlesAux, ih]

theorem applyDescsAux_length (ds : List String) :
    ∀ (news : List NewsItem) (i : Nat), (applyDescsAux ds i news).length = news.length := by
  intro news
  induction news with
  | nil => intro i; rfl
  | cons x xs ih =>
    intro i
    simp [applyDescsAux, ih]

theorem applyTitlesAux_getD (ts : List String) :
    ∀ (news : List NewsItem) (i j : Nat), j < news.length →
      (applyTitlesAux ts i news).getD j noItem
        = { news.getD j noItem with
            titleRU := ts.getD (i + j) ((news.getD j noItem).title) } := by
  intro news
  induction news with
  | nil =>
    intro i j h
    simp at h
  | cons x xs ih =>
    intro i j h
    match j with
    | 0 => simp [applyTitlesAux]
    | j + 1 =>
      have hlen : j < xs.length := by simpa using h
      show (applyTitlesAux ts (i + 1) xs).getD j noItem = _
      rw [ih (i + 1) j hlen]
      rw [show i + 1 + j = i + (j + 1) from by omega]
      rfl

theorem applyDescsAux_getD (ds : List String) :
    ∀ (news : List NewsItem) (i j : Nat), j < news.length →
      (applyDescsAux ds i news).getD j noItem
        = { news.getD j noItem with
            descriptionRU := ds.getD (i + j) ((news.getD j noItem).description) } := by
  intro news
  induction news with
  | nil =>
    intro i j h
    simp at h
  | cons x xs ih =>
    intro i j h
    match j with
    | 0 => simp [applyDescsAux]
    | j + 1 =>
      have hlen : j < xs.length := by simpa using h
      show (applyDescsAux ds (i + 1) xs).getD j noItem = _
      rw [ih (i + 1) j hlen]
      rw [show i + 1 + j = i + (j + 1) from by omega]
      rfl

theorem applyTitlesAux_description (ts : List String) :
    ∀ (news : List NewsItem) (i j : Nat),
      ((applyTitlesAux ts i news).getD j noItem).description
        = (news.getD j noItem).description := by
  intro news
  induction news with
  | nil => intro i j; rfl
  | cons x xs ih =>
    intro i j
    match j with
    | 0 => rfl
    | j + 1 => exact ih (i + 1) j

theorem applyDescsAux_titleRU (ds : List String) :
    ∀ (news : List NewsItem) (i j : Nat),
      ((applyDescsAux ds i news).getD j noItem).titleRU
        = (news.getD j noItem).titleRU := by
  intro news
  induction news with
  | nil => intro i j; rfl
  | cons x xs ih =>
    intro i j
    match j with
    | 0 => rfl
    | j + 1 => exact ih (i + 1) j

theorem mapTitleFallback_getD :
    ∀ (news : List NewsItem) (j : Nat), j < news.length →
      ((news.map (fun item => { item with titleRU := item.title })).getD j noItem)
        = { news.getD j noItem with titleRU := (news.getD j noItem).title } := by
  intro news
  induction news with
  | nil =>
    intro j h
    simp at h
  | cons x xs ih =>
    intro j h
    match j with
    | 0 => rfl
    | j + 1 => exact ih j (by simpa using h)

theorem mapDescFallback_getD :
    ∀ (news : List NewsItem) (j : Nat), j < news.length →
      ((news.map (fun item => { item with descriptionRU := item.description })).getD j noItem)
        = { news.getD j noItem with
            descriptionRU := (news.getD j noItem).description } := by
  intro news
  induction news with
  | nil =>
    intro j h
    simp at h
  | cons x xs ih =>
    intro j h
    match j with
    | 0 => rfl
    | j + 1 => exact ih j (by simpa using h)

theorem mapTitleFallback_description :
    ∀ (news : List NewsItem) (j : Nat),
      ((news.map (fun item => { item with titleRU := item.title })).getD j noItem).description
        = (news.getD j noItem).description := by
  intro news
  induction news with
  | nil => intro j; rfl
  | cons x xs ih =>
    intro j
    match j with
    | 0 => rfl
    | j + 1 => exact ih j

theorem mapDescFallback_titleRU :
    ∀ (news : List NewsItem) (j : Nat),
      ((news.map (fun item => { item with descriptionRU := item.description })).getD j
          noItem).titleRU
        = (news.getD j noItem).titleRU := by
  intro news
  induction news with
  | nil => intro j; rfl
  | cons x xs ih =>
    intro j
    match j with
    | 0 => rfl
    | j + 1 => exact ih j

theorem applyTitlesStage_length (res : Option (List String)) (news : List NewsItem) :
    (applyTitlesStage res news).length = news.length := by
  cases res with
  | none => exact List.length_map _ _
  | some ts => exact applyTitlesAux_length ts news 0

theorem applyDescsStage_length (res : Option (List String)) (news : List NewsItem) :
    (applyDescsStage res news).length = news.length := by
  cases res with
  | none => exact List.length_map _ _
  | some ds => exact applyDescsAux_length ds news 0

theorem applyTitlesStage_description (res : Option (List String)) (news : List NewsItem)
    (j : Nat) :
    ((applyTitlesStage res news).getD j noItem).description
      = (news.getD j noItem).description := by
  cases res with
  | none => exact mapTitleFallback_description news j
  | some ts => exact applyTitlesAux_description ts news 0 j

theorem applyDescsStage_titleRU (res : Option (List String)) (news : List NewsItem)
    (j : Nat) :
    ((applyDescsStage res news).getD j noItem).titleRU
      = (news.getD j noItem).titleRU := by
  cases res with
  | none => exact mapDescFallback_titleRU news j
  | some ds => exact applyDescsAux_titleRU ds news 0 j

/-- C7: on a failed title (resp. description) batch every item keeps its
original title (resp. description) in the translated field; on a successful
batch, the item at index `j` receives the returned translation at index `j`
when it exists and falls back to its own original value when the returned
batch is shorter; the item count is preserved, so the run continues with a
fully populated list. -/
theorem translateNewsItems_fallback (translate : List String → Option (List String))
    (news : List NewsItem) :
    (translate (titlesToTranslate news) = none → ∀ j, j < news.length →
        ((TranslateNewsItems translate news).getD j noItem).titleRU
          = (news.getD j noItem).title)
      ∧ (translate (descriptionsToTranslate news) = none → ∀ j, j < news.length →
          ((TranslateNewsItems translate news).getD j noItem).descriptionRU
            = (news.getD j noItem).description)
      ∧ (∀ ts, translate (titlesToTranslate news) = some ts → ∀ j, j < news.length →
          ((TranslateNewsItems translate news).getD j noItem).titleRU
            = ts.getD j ((news.getD j noItem).title))
      ∧ (∀ ds, translate (descriptionsToTranslate news) = some ds → ∀ j, j < news.length →
          ((TranslateNewsItems translate news).getD j noItem).descriptionRU
            = ds.getD j ((news.getD j noItem).description))
      ∧ (TranslateNewsItems translate news).length = news.length := by
  refine ⟨?_, ?_, ?_, ?_, ?_⟩
  · intro hT j hj
    rw [TranslateNewsItems, hT, applyDescsStage_titleRU]
    rw [show applyTitlesStage none news
        = news.map (fun item => { item with titleRU := item.title }) from rfl]
    rw [mapTitleFallback_getD news j hj]
  · intro hD j hj
    rw [TranslateNewsItems, hD]
    rw [show applyDescsStage none (applyTitlesStage (translate (titlesToTranslate news)) news)
        = (applyTitlesStage (translate (titlesToTranslate news)) news).map
            (fun item => { item with descriptionRU := item.description }) from rfl]
    rw [mapDescFallback_getD _ j (by rw [applyTitlesStage_length]; omega)]
    exact applyTitlesStage_description _ news j
  · intro ts hT j hj
    rw [TranslateNewsItems, hT, applyDescsStage_titleRU]
    rw [show applyTitlesStage (some ts) news = applyTitlesAux ts 0 news from rfl]
    rw [applyTitlesAux_getD ts news 0 j hj, Nat.zero_add]
  · intro ds hD j hj
    rw [TranslateNewsItems, hD]
    rw [show applyDescsStage (some ds) (applyTitlesStage (translate (titlesToTranslate news)) news)
        = applyDescsAux ds 0 (applyTitlesStage (translate (titlesToTranslate news)) news)
        from rfl]
    rw [applyDescsAux_getD ds _ 0 j (by rw [applyTitlesStage_length]; omega), Nat.zero_add]
    rw [show ({ (applyTitlesStage (translate (titlesToTranslate news)) news).getD j noItem with
        descriptionRU := ds.getD j
          (((applyTitlesStage (translate (titlesToTranslate news)) news).getD j
            noItem).description) } : NewsItem).descriptionRU
      = ds.getD j
          (((applyTitlesStage (translate (titlesToTranslate news)) news).getD j
            noItem).description) from rfl]
    rw [applyTitlesStage_description]
  · rw [TranslateNewsItems, applyDescsStage_length, applyTitlesStage_length]

theorem translateNewsItems_fallback_witness :
    ((TranslateNewsItems (fun _ => none) [mkItem "t" "d" 0]).getD 0 noItem).titleRU = "t"
      ∧ ((TranslateNewsItems (fun _ => none) [mkItem "t" "d" 0]).getD 0 noItem).descriptionRU
          = "d"
      ∧ ((TranslateNewsItems (fun _ => some ["X"])
            [mkItem "a" "" 0, mkItem "b" "bb" 0]).getD 0 noItem).titleRU = "X"
      ∧ ((TranslateNewsItems (fun _ => some ["X"])
            [mkItem "a" "" 0, mkItem "b" "bb" 0]).getD 1 noItem).titleRU = "b"
      ∧ ((TranslateNewsItems (fun _ => some ["X"])
            [mkItem "a" "" 0, mkItem "b" "bb" 0]).getD 1 noItem).descriptionRU = "bb" := by
  have h1 := translateNewsItems_fallback (fun _ => none) [mkItem "t" "d" 0]
  have h2 := translateNewsItems_fallback (fun _ => some ["X"])
    [mkItem "a" "" 0, mkItem "b" "bb" 0]
  refine ⟨?_, ?_, ?_, ?_, ?_⟩
  · exact (h1.1 rfl 0 (by decide)).trans (by decide)
  · exact (h1.2.1 rfl 0 (by decide)).trans (by decide)
  · exact (h2.2.2.1 ["X"] rfl 0 (by decide)).trans (by decide)
  · exact (h2.2.2.1 ["X"] rfl 1 (by decide)).trans (by decide)
  · exact (h2.2.2.2.1 ["X"] rfl 1 (by decide)).trans (by decide)

/-- C9: when the sources together contribute zero aggregated items, the
aggregation returns the no-items error and the run fails with that error no
matter what the publisher would do — formatting and publishing are never
reached; when at least one item was aggregated, aggregation succeeds and the
no-items error cannot occur. -/
theorem aggregateNews_noItems (translate : List String → Option (List String))
    (maxItems : Nat) (sourceResults : List (Option (List NewsItem)))
    (trendResults : List (Option (List String))) (nowStr : String) :
    ((sourceResults.filterMap id).flatten = [] →
        AggregateNews translate maxItems sourceResults trendResults
          = Except.error "no news items could be fetched from any source"
        ∧ ∀ publish, Run publish nowStr translate maxItems sourceResults trendResults
            = Except.error
                "error aggregating news: no news items could be fetched from any source")
      ∧ ((sourceResults.filterMap id).flatten ≠ [] →
          ∃ topNews trends,
            AggregateNews translate maxItems sourceResults trendResults
              = Except.ok (topNews, trends)) := by
  constructor
  · intro hempty
    have hagg : AggregateNews translate maxItems sourceResults trendResults
        = Except.error "no news items could be fetched from any source" := by
      simp only [AggregateNews, hempty]
      rfl
    refine ⟨hagg, fun publish => ?_⟩
    simp only [Run, hagg]
    rfl
  · intro hne
    have hfalse : ((sourceResults.filterMap id).flatten).isEmpty = false := by
      simpa using hne
    refine ⟨TranslateNewsItems translate
        (rankNewsByRelevance maxItems ((sourceResults.filterMap id).flatten)),
      removeDuplicates ((trendResults.filterMap id).flatten), ?_⟩
    simp [AggregateNews, hfalse]

theorem aggregateNews_noItems_witness :
    AggregateNews (fun _ => none) 5 [none, some []] []
        = Except.error "no news items could be fetched from any source"
      ∧ Run (fun _ => Except.ok ()) "" (fun _ => none) 5 [none, some []] []
          = Except.error
              "error aggregating news: no news items could be fetched from any source"
      ∧ ∃ topNews trends,
          AggregateNews (fun _ => none) 5 [some [mkItem "m" "" 0]] []
            = Except.ok (topNews, trends) := by
  have h := aggregateNews_noItems (fun _ => none) 5 [none, some []] [] ""
  have h2 := aggregateNews_noItems (fun _ => none) 5 [some [mkItem "m" "" 0]] [] ""
  exact ⟨(h.1 rfl).1, (h.1 rfl).2 _, h2.2 (by decide)⟩

theorem getD_of_lt {α : Type} (l : List α) (j : Nat) (h : j < l.length) (a b : α) :
    l.getD j a = l.getD j b := by
  rw [List.getD_eq_getElem?_getD, List.getD_eq_getElem?_getD, List.getElem?_eq_getElem h]
  rfl

theorem descriptionsToTranslate_getD :
    ∀ (news : List NewsItem) (j : Nat), j < news.length →
      (descriptionsToTranslate news).getD j ""
        = if (news.getD j noItem).description = "" then "No description available"
          else (news.getD j noItem).description := by
  intro news
  induction news with
  | nil =>
    intro j h
    simp at h
  | cons x xs ih =>
    intro j h
    match j with
    | 0 => rfl
    | j + 1 => exact ih j (by simpa using h)

/-- C10: an item's empty description is submitted to the description batch
as the literal placeholder "No description available"; consequently, on a
successful batch the item at index `i` receives the provider's translation
at index `i` (in particular not the empty string), while on a failed batch
it keeps its original (empty) description; and the formatter renders an item
whose chosen description equals the placeholder exactly as it renders the
same item with no description at all. -/
theorem emptyDescription_placeholder (translate : List String → Option (List String))
    (news : List NewsItem) (i : Nat) :
    (i < news.length → (news.getD i noItem).description = "" →
        (descriptionsToTranslate news).getD i "" = "No description available")
      ∧ (∀ tds, translate (descriptionsToTranslate news) = some tds →
          i < news.length → i < tds.length →
          ((TranslateNewsItems translate news).getD i noItem).descriptionRU
            = tds.getD i "")
      ∧ (translate (descriptionsToTranslate news) = none → i < news.length →
          ((TranslateNewsItems translate news).getD i noItem).descriptionRU
            = (news.getD i noItem).description)
      ∧ (∀ n : NewsItem,
          (if n.descriptionRU = "" then n.description else n.descriptionRU)
            = "No description available" →
          formatNewsItem i n
            = formatNewsItem i { n with description := "", descriptionRU := "" }) := by
  refine ⟨?_, ?_, ?_, ?_⟩
  · intro hi hdesc
    rw [descriptionsToTranslate_getD news i hi, if_pos hdesc]
  · intro tds hD hi hti
    have key : ((TranslateNewsItems translate news).getD i noItem).descriptionRU
        = tds.getD i ((news.getD i noItem).description) := by
      rw [TranslateNewsItems, hD]
      rw [show applyDescsStage (some tds)
            (applyTitlesStage (translate (titlesToTranslate news)) news)
          = applyDescsAux tds 0 (applyTitlesStage (translate (titlesToTranslate news)) news)
          from rfl]
      rw [applyDescsAux_getD tds _ 0 i (by rw [applyTitlesStage_length]; omega), Nat.zero_add]
      rw [show ({ (applyTitlesStage (translate (titlesToTranslate news)) news).getD i noItem with
          descriptionRU := tds.getD i
            (((applyTitlesStage (translate (titlesToTranslate news)) news).getD i
              noItem).description) } : NewsItem).descriptionRU
        = tds.getD i
            (((applyTitlesStage (translate (titlesToTranslate news)) news).getD i
              noItem).description) from rfl]
      rw [applyTitlesStage_description]
    rw [key]
    exact getD_of_lt tds i hti _ _
  · intro hD hi
    rw [TranslateNewsItems, hD]
    rw [show applyDescsStage none (applyTitlesStage (translate (titlesToTranslate news)) news)
        = (applyTitlesStage (translate (titlesToTranslate news)) news).map
            (fun item => { item with descriptionRU := item.description }) from rfl]
    rw [mapDescFallback_getD _ i (by rw [applyTitlesStage_length]; omega)]
    exact applyTitlesStage_description _ news i
  · intro n hchosen
    simp only [formatNewsItem, hchosen]
    simp

theorem emptyDescription_placeholder_witness :
    (descriptionsToTranslate [mkItem "a" "" 0]).getD 0 "" = "No description available"
      ∧ ((TranslateNewsItems (fun _ => some ["Y"]) [mkItem "a" "" 0]).getD 0
          noItem).descriptionRU = "Y"
      ∧ ((TranslateNewsItems (fun _ => none) [mkItem "a" "" 0]).getD 0
          noItem).descriptionRU = ""
      ∧ formatNewsItem 0 (mkItem "x" "No description available" 0)
          = formatNewsItem 0
              { mkItem "x" "No description available" 0 with
                  description := "", descriptionRU := "" } := by
  have h1 := emptyDescription_placeholder (fun _ => some ["Y"]) [mkItem "a" "" 0] 0
  have h2 := emptyDescription_placeholder (fun _ => none) [mkItem "a" "" 0] 0
  refine ⟨?_, ?_, ?_, ?_⟩
  · exact h1.1 (by decide) rfl
  · exact (h1.2.1 ["Y"] rfl (by decide) (by decide)).trans (by decide)
  · exact (h2.2.2.1 rfl (by decide)).trans (by decide)
  · exact h1.2.2.2 (mkItem "x" "No description available" 0) (by decide)
